import Mathlib

set_option maxRecDepth 8000

/-!
Verification development for the constraints-solver rigid-body core
(`src/rigid.rs`, `src/constraint.rs`, `src/collision.rs`).

Two scalar models are used, matching how the two halves of the code consume
numbers:

* The solver layer (`Rigid`, `Constraint`, `ground`) is embedded over `ℚ`.
  All of its arithmetic (`+`, `-`, `*`, `/`, element-wise division,
  projections) is exact field arithmetic; the only irrational-valued f64
  operations it calls (`sqrt` inside `normalize`/`magnitude`, `cos`/`sin`
  inside the quaternion exponential map) are abstracted into an explicit
  `RealFns` parameter so every definition stays computable; theorems either
  hold for every choice of these functions or hypothesise exactly the
  defining equations of the real functions at the values reached.

* The GJK layer (`FP` namespace) branches on `f64::total_cmp`, which can
  observe the sign of an IEEE zero (`-0.0 < 0.0`), and on the cube inputs of
  the claims every f64 operation it performs is exact (small dyadic
  rationals, no rounding).  It is therefore embedded over an exact
  signed-zero scalar `FP.F` (a dyadic magnitude `num / 2 ^ exp2` plus an
  IEEE sign bit) whose `+`, `-`, `*` follow the IEEE-754 rules for signed
  zeros under round-to-nearest, making the embedding bit-faithful to the
  f64 run on these inputs.

`src/frame.rs` is not part of the given sources (only its callers are);
the `Frame` operations are modelled from the spec, as marked on each.
-/

/-- Vector of three rationals, embedding `cgmath::Vector3<f64>`
(and the `Vector3<f32>` appearing in `constraint.rs`; a single exact
scalar models both widths). -/
@[ext]
structure V3 where
  x : ℚ
  y : ℚ
  z : ℚ
  deriving DecidableEq, Repr

/-- Componentwise vector addition (`cgmath` `Add`). -/
instance : Add V3 := ⟨fun a b => ⟨a.x + b.x, a.y + b.y, a.z + b.z⟩⟩

/-- Componentwise vector subtraction (`cgmath` `Sub`). -/
instance : Sub V3 := ⟨fun a b => ⟨a.x - b.x, a.y - b.y, a.z - b.z⟩⟩

/-- Componentwise vector negation (`cgmath` `Neg`). -/
instance : Neg V3 := ⟨fun a => ⟨-a.x, -a.y, -a.z⟩⟩

/-- Scalar-vector product (`cgmath` `s * v` and `v * s`). -/
instance : SMul ℚ V3 := ⟨fun s a => ⟨s * a.x, s * a.y, s * a.z⟩⟩

/-- Vector-by-scalar division (`cgmath` `v / s`). -/
instance : HDiv V3 ℚ V3 := ⟨fun a s => ⟨a.x / s, a.y / s, a.z / s⟩⟩

/-- The zero vector (`Vector3::zero()`). -/
def V3.zero : V3 := ⟨0, 0, 0⟩

/-- Dot product (`cgmath` `InnerSpace::dot`: componentwise product, then
the left-associated sum `x + y + z`). -/
def V3.dot (a b : V3) : ℚ := a.x * b.x + a.y * b.y + a.z * b.z

/-- Cross product (`cgmath` `Vector3::cross`). -/
def V3.cross (a b : V3) : V3 :=
  ⟨a.y * b.z - a.z * b.y, a.z * b.x - a.x * b.z, a.x * b.y - a.y * b.x⟩

/-- Componentwise division (`cgmath` `ElementWise::div_element_wise`). -/
def V3.div_element_wise (a b : V3) : V3 := ⟨a.x / b.x, a.y / b.y, a.z / b.z⟩

/-- Squared magnitude (`cgmath` `magnitude2`). -/
def V3.magnitude2 (a : V3) : ℚ := a.dot a

/-- Projection of `a` onto `b` (`cgmath` `project_on`:
`b * (a.dot(b) / b.magnitude2())`). -/
def V3.project_on (a b : V3) : V3 := (a.dot b / b.magnitude2) • b

/-- The irrational-valued f64 functions used by the code (`f64::sqrt`
inside `magnitude`/`normalize`, `cos`/`sin` inside the quaternion
exponential map), abstracted so the embedding stays inside `ℚ`.
Theorems are stated for every choice of these functions, or hypothesise
the defining equations of the real functions at the values reached. -/
structure RealFns where
  sqrt : ℚ → ℚ
  cos : ℚ → ℚ
  sin : ℚ → ℚ

/-- Magnitude (`cgmath` `magnitude`: the square root of the dot square). -/
def V3.magnitude (R : RealFns) (a : V3) : ℚ := R.sqrt (a.dot a)

/-- Normalization (`cgmath` `InnerSpace::normalize`:
`self * (1 / magnitude)`). -/
def V3.normalize (R : RealFns) (a : V3) : V3 := (1 / a.magnitude R) • a

/-- Quaternion with scalar part `s` and vector part `v`
(`cgmath::Quaternion`, fields `s` and `v`). -/
@[ext]
structure Quat where
  s : ℚ
  v : V3
  deriving DecidableEq, Repr

/-- Quaternion addition (`cgmath` `Add`). -/
instance : Add Quat := ⟨fun a b => ⟨a.s + b.s, a.v + b.v⟩⟩

/-- Scalar-quaternion product (`cgmath` `s * q`). -/
instance : SMul ℚ Quat := ⟨fun s a => ⟨s * a.s, s • a.v⟩⟩

/-- Hamilton product (`cgmath` `Mul<Quaternion>`). -/
instance : Mul Quat :=
  ⟨fun a b =>
    ⟨a.s * b.s - a.v.x * b.v.x - a.v.y * b.v.y - a.v.z * b.v.z,
     ⟨a.s * b.v.x + a.v.x * b.s + a.v.y * b.v.z - a.v.z * b.v.y,
      a.s * b.v.y + a.v.y * b.s + a.v.z * b.v.x - a.v.x * b.v.z,
      a.s * b.v.z + a.v.z * b.s + a.v.x * b.v.y - a.v.y * b.v.x⟩⟩⟩

/-- Quaternion conjugate (`cgmath` `conjugate`). -/
def Quat.conjugate (q : Quat) : Quat := ⟨q.s, -q.v⟩

/-- Rotation of a vector by a quaternion (`cgmath` `Mul<Vector3>`:
`tmp = q.v × vec + vec * q.s; result = (q.v × tmp) * 2 + vec`). -/
def Quat.rotate (q : Quat) (vec : V3) : V3 :=
  let tmp := q.v.cross vec + q.s • vec
  (2 : ℚ) • q.v.cross tmp + vec

/-- Quaternion dot product (`cgmath` `InnerSpace::dot`). -/
def Quat.dot (a b : Quat) : ℚ := a.s * b.s + a.v.dot b.v

/-- Quaternion normalization (`cgmath` `InnerSpace::normalize`:
`self * (1 / magnitude)`, the magnitude being the square root of the
dot square). -/
def Quat.normalize (R : RealFns) (q : Quat) : Quat := (1 / R.sqrt (q.dot q)) • q

/-- Modelled from the spec: `Frame` (src/frame.rs is not in the given
sources) — a pose holding a `position` and an `orientation` quaternion
(named `quaternion`, the field name its callers use). -/
@[ext]
structure Frame where
  position : V3
  quaternion : Quat
  deriving DecidableEq, Repr

/-- Modelled from the spec: `Frame::act` applies the orientation and then
the translation (object-to-world rigid transform). -/
def Frame.act (f : Frame) (point : V3) : V3 := f.quaternion.rotate point + f.position

/-- Modelled from the spec: `Frame::inverse` is the world-to-object
transform — conjugate orientation, negated-and-rotated position. -/
def Frame.inverse (f : Frame) : Frame :=
  ⟨f.quaternion.conjugate.rotate (-f.position), f.quaternion.conjugate⟩

/-- Modelled from the spec: the default `Frame` is the identity pose. -/
def Frame.default : Frame := ⟨V3.zero, ⟨1, V3.zero⟩⟩

/-- Modelled from the spec: the quaternion exponential map of a rotation
vector `u` — the unit quaternion with scalar part `cos(|u|/2)` and vector
part `sin(|u|/2)` times the axis `u/|u|`. -/
def V3.exp_map (R : RealFns) (u : V3) : Quat :=
  let angle := u.magnitude R
  ⟨R.cos (angle / 2), (R.sin (angle / 2) / angle) • u⟩

/-- Modelled from the spec: `Frame::integrate` is the semi-implicit Euler
pose update — `position += dt * velocity`, orientation premultiplied by the
exponential map of `dt * angular_velocity` and renormalized. -/
def Frame.integrate (R : RealFns) (f : Frame) (dt : ℚ) (velocity angular_velocity : V3) : Frame :=
  ⟨f.position + dt • velocity,
   Quat.normalize R ((dt • angular_velocity).exp_map R * f.quaternion)⟩

/-- The rigid body state (`src/rigid.rs`, `struct Rigid`), fields in source
order.  `color` is `[f32; 3]` render data, modelled as a rational triple. -/
@[ext]
structure Rigid where
  mass : ℚ
  rotational_inertia : V3
  external_force : V3
  internal_force : V3
  external_torque : V3
  internal_torque : V3
  velocity : V3
  angular_velocity : V3
  frame : Frame
  past_frame : Option Frame
  color : Option (ℚ × ℚ × ℚ)
  deriving DecidableEq, Repr

/-- `Rigid::new` (src/rigid.rs): unit-cube extents, diagonal inertia
`1/12 * mass * (ey²+ez², ex²+ez², ex²+ey²)`, zero forces/torques and
velocities, default frame, no past frame.  The source performs no
validation of `mass`. -/
def Rigid.new (mass : ℚ) : Rigid :=
  let extent : V3 := ⟨1, 1, 1⟩
  { mass := mass
    rotational_inertia :=
      ((1 : ℚ) / 12 * mass) •
        ⟨extent.y * extent.y + extent.z * extent.z,
         extent.x * extent.x + extent.z * extent.z,
         extent.x * extent.x + extent.y * extent.y⟩
    internal_force := V3.zero
    external_force := V3.zero
    internal_torque := V3.zero
    external_torque := V3.zero
    velocity := V3.zero
    angular_velocity := V3.zero
    frame := Frame.default
    past_frame := none
    color := none }

/-- `Rigid::integrate` (src/rigid.rs): force and torque accumulation into
the velocities, then the frame snapshot and the frame update, mirroring the
source's mutation order. -/
def Rigid.integrate (R : RealFns) (r : Rigid) (dt : ℚ) : Rigid :=
  let force := r.external_force + r.frame.quaternion.rotate r.internal_force
  let velocity := r.velocity + (dt • force) / r.mass
  let torque := r.external_torque + r.frame.quaternion.rotate r.internal_torque
  let angular_velocity :=
    r.angular_velocity + dt • (torque.div_element_wise r.rotational_inertia)
  { r with
    velocity := velocity
    angular_velocity := angular_velocity
    past_frame := some r.frame
    frame := r.frame.integrate R dt velocity angular_velocity }

/-- `Rigid::apply_impulse` (src/rigid.rs): nudges the position by
`impulse / mass` first, then forms the lever from the already-updated
position, half-applies it as a quaternion derivative and renormalizes. -/
def Rigid.apply_impulse (R : RealFns) (r : Rigid) (impulse point : V3) : Rigid :=
  let position := r.frame.position + impulse / r.mass
  let log := ((point - position).div_element_wise r.rotational_inertia).cross impulse
  let rotation := (((1 : ℚ) / 2) • (⟨0, log⟩ : Quat)) * r.frame.quaternion
  { r with
    frame :=
      { position := position
        quaternion := Quat.normalize R (r.frame.quaternion + rotation) } }

/-- `Rigid::delta` (src/rigid.rs): the displacement of a global point
between the past frame and the current frame; the zero vector when no past
frame exists. -/
def Rigid.delta (r : Rigid) (global : V3) : V3 :=
  match r.past_frame with
  | some past =>
    let point_local := r.frame.inverse.act global
    let past_global := past.act point_local
    global - past_global
  | none => V3.zero

/-- A contact constraint (`src/constraint.rs`, `struct Constraint`).
The `RefCell<Rigid>` reference is modelled by holding the `Rigid` value;
the mutating `act` returns the mutated body.  The source's `rigid.inertia`
denotes the body's `rotational_inertia` field. -/
@[ext]
structure Constraint where
  rigid : Rigid
  contacts : V3 × V3
  distance : ℚ
  deriving DecidableEq, Repr

/-- `Constraint::difference` (src/constraint.rs): `contacts.1 - contacts.0`. -/
def Constraint.difference (c : Constraint) : V3 := c.contacts.2 - c.contacts.1

/-- `Constraint::direction` (src/constraint.rs): the normalized difference.
The source applies `normalize` unconditionally, with no zero-length guard. -/
def Constraint.direction (c : Constraint) (R : RealFns) : V3 := c.difference.normalize R

/-- `Constraint::current_distance` (src/constraint.rs). -/
def Constraint.current_distance (c : Constraint) (R : RealFns) : ℚ := c.difference.magnitude R

/-- `Constraint::resistance` (src/constraint.rs): reciprocal of the inverse
mass plus the inertia-weighted square of the angular lever. -/
def Constraint.resistance (c : Constraint) (R : RealFns) : ℚ :=
  let angular_impulse :=
    c.rigid.frame.quaternion.conjugate.rotate
      ((c.contacts.1 - c.rigid.frame.position).cross (c.direction R))
  (c.rigid.mass⁻¹ +
    (angular_impulse.div_element_wise c.rigid.rotational_inertia).dot angular_impulse)⁻¹

/-- `Constraint::act` (src/constraint.rs): applies `factor * direction` at
`contacts.0` through `Rigid::apply_impulse`, unconditionally. -/
def Constraint.act (c : Constraint) (R : RealFns) (factor : ℚ) : Rigid :=
  let impulse := factor • c.direction R
  c.rigid.apply_impulse R impulse c.contacts.1

/-- `CUBE_VERTICES` (src/collision.rs): the eight corners of the canonical
unit cube, in source order. -/
def CUBE_VERTICES : List V3 :=
  [⟨-0.5, -0.5, -0.5⟩, ⟨0.5, -0.5, -0.5⟩, ⟨-0.5, 0.5, -0.5⟩, ⟨0.5, 0.5, -0.5⟩,
   ⟨-0.5, -0.5, 0.5⟩, ⟨0.5, -0.5, 0.5⟩, ⟨-0.5, 0.5, 0.5⟩, ⟨0.5, 0.5, 0.5⟩]

/-- `ground` (src/collision.rs): scans the transformed cube corners and
pushes one constraint per corner below the ground plane, mirroring the
source's `for`/`continue`/`push` loop. -/
def ground (r : Rigid) : List Constraint :=
  CUBE_VERTICES.foldl
    (fun constraints vertex =>
      let position := r.frame.act vertex
      if 0 ≤ position.z then constraints
      else
        let target_position : V3 := ⟨position.x, position.y, 0⟩
        let correction := target_position - position
        let delta_position := r.delta position
        let delta_tangential_position :=
          delta_position - delta_position.project_on correction
        constraints ++
          [{ rigid := r
             contacts := (position, target_position - (1 : ℚ) • delta_tangential_position)
             distance := 0 }])
    []

namespace FP

/-- Exact f64 value as consumed by the GJK path of src/collision.rs: the
dyadic rational `num / 2 ^ exp2` (unnormalized; `ℚ` itself is avoided
because its kernel arithmetic does not reduce) plus the IEEE sign bit
`sgn` (observable through `f64::total_cmp` only when the value is zero,
distinguishing `-0.0` from `0.0`).  Every f64 operation the GJK path
performs on the claims' cube inputs is exact (small dyadic rationals, no
rounding), so this scalar is bit-faithful there. -/
structure F where
  num : Int
  exp2 : Nat
  sgn : Bool
  deriving DecidableEq, Repr

/-- The f64 literal with integer value `n`. -/
def F.ofInt (n : Int) : F := ⟨n, 0, decide (n < 0)⟩

/-- The f64 literal with value `n / 2` (the cube corners and one claim
center are half-integers). -/
def F.half (n : Int) : F := ⟨n, 1, decide (n < 0)⟩

/-- IEEE negation: flips the sign bit. -/
def F.neg (a : F) : F := ⟨-a.num, a.exp2, !a.sgn⟩

/-- IEEE multiplication (exact case): the sign bit of a product is the
exclusive or of the operand sign bits, also when the product is zero. -/
def F.mul (a b : F) : F := ⟨a.num * b.num, a.exp2 + b.exp2, xor a.sgn b.sgn⟩

/-- IEEE addition (exact case, round-to-nearest): the numerators are
brought to the common denominator `2 ^ max exp2 exp2`; a zero sum is
`-0.0` only when both operands are `-0.0`; exact cancellation of nonzero
operands yields `+0.0`. -/
def F.add (a b : F) : F :=
  let e := max a.exp2 b.exp2
  let r := a.num * 2 ^ (e - a.exp2) + b.num * 2 ^ (e - b.exp2)
  ⟨r, e, if r = 0 then a.sgn && b.sgn && decide (a.num = 0) else decide (r < 0)⟩

/-- IEEE subtraction: `a + (-b)`. -/
def F.sub (a b : F) : F := a.add b.neg

instance : Add F := ⟨F.add⟩

instance : Sub F := ⟨F.sub⟩

instance : Neg F := ⟨F.neg⟩

instance : Mul F := ⟨F.mul⟩

/-- The f64 comparison `x > 0.0` (used by `same_direction`): the IEEE
`>` ignores the sign of a zero, so it is a comparison of the value, that
is of the numerator. -/
def F.gt_zero (a : F) : Bool := decide (0 < a.num)

/-- Whether `a.total_cmp(&b)` is `Ordering::Greater` (used by the
`max_by` in `Rigid::support`): numeric comparison (cross-multiplied onto
the common denominator), except that `-0.0 < +0.0`. -/
def F.total_gt (a b : F) : Bool :=
  decide (b.num * 2 ^ a.exp2 < a.num * 2 ^ b.exp2) ||
    (decide (a.num = 0) && decide (b.num = 0) && b.sgn && !a.sgn)

/-- Vector of three exact f64 values (`cgmath::Vector3<f64>` on the GJK
path). -/
structure V3 where
  x : F
  y : F
  z : F
  deriving DecidableEq, Repr

instance : Add V3 := ⟨fun a b => ⟨a.x + b.x, a.y + b.y, a.z + b.z⟩⟩

instance : Sub V3 := ⟨fun a b => ⟨a.x - b.x, a.y - b.y, a.z - b.z⟩⟩

instance : Neg V3 := ⟨fun a => ⟨-a.x, -a.y, -a.z⟩⟩

/-- Vector-scalar product (`cgmath` `v * s`). -/
def V3.scale (a : V3) (s : F) : V3 := ⟨a.x * s, a.y * s, a.z * s⟩

/-- Dot product (`cgmath` `InnerSpace::dot`: componentwise product, then
the left-associated sum, whose order matters for zero signs). -/
def V3.dot (a b : V3) : F := a.x * b.x + a.y * b.y + a.z * b.z

/-- Cross product (`cgmath` `Vector3::cross`). -/
def V3.cross (a b : V3) : V3 :=
  ⟨a.y * b.z - a.z * b.y, a.z * b.x - a.x * b.z, a.x * b.y - a.y * b.x⟩

/-- The f64 vector with integer components. -/
def V3.ofInt (x y z : Int) : V3 := ⟨F.ofInt x, F.ofInt y, F.ofInt z⟩

/-- The f64 vector with half-integer components (each given as a number
of halves). -/
def V3.halves (x y z : Int) : V3 := ⟨F.half x, F.half y, F.half z⟩

/-- `Vector3::unit_x()`. -/
def unit_x : V3 := V3.ofInt 1 0 0

/-- Quaternion over exact f64 values (`cgmath::Quaternion<f64>`). -/
structure Quat where
  s : F
  v : V3
  deriving DecidableEq, Repr

/-- Rotation of a vector by a quaternion (`cgmath` `Mul<Vector3>`:
`tmp = q.v × vec + vec * q.s; result = (q.v × tmp) * 2 + vec`). -/
def Quat.rotate (q : Quat) (vec : V3) : V3 :=
  let tmp := q.v.cross vec + vec.scale q.s
  (q.v.cross tmp).scale (F.ofInt 2) + vec

/-- Modelled from the spec: `Frame` on the GJK path (src/frame.rs is not
in the given sources) — position plus orientation quaternion. -/
structure Frame where
  position : V3
  quaternion : Quat
  deriving DecidableEq, Repr

/-- Modelled from the spec: `Frame::act` applies the orientation and then
the translation. -/
def Frame.act (f : Frame) (point : V3) : V3 := f.quaternion.rotate point + f.position

/-- The rigid body as read by the GJK path (`impl Rigid` in
src/collision.rs reads only `self.frame`; the remaining physical fields of
`Rigid` never flow into `support`/`gjk` and are omitted from this
float-level view). -/
structure Rigid where
  frame : Frame
  deriving DecidableEq, Repr

/-- `CUBE_VERTICES` (src/collision.rs): the corners `(±0.5, ±0.5, ±0.5)`
as f64 literals in source order, components given in halves. -/
def CUBE_VERTICES : List V3 :=
  [V3.halves (-1) (-1) (-1), V3.halves 1 (-1) (-1),
   V3.halves (-1) 1 (-1), V3.halves 1 1 (-1),
   V3.halves (-1) (-1) 1, V3.halves 1 (-1) 1,
   V3.halves (-1) 1 1, V3.halves 1 1 1]

/-- `Rigid::support` (src/collision.rs): the transformed hull vertex
maximizing the dot product with `dir`.  Rust's `Iterator::max_by` keeps
the later element on `Ordering::Equal` ties, so the fold keeps `acc` only
when it compares strictly greater; the empty case of the `match` is
unreachable (`unwrap` on the nonempty vertex list). -/
def Rigid.support (r : Rigid) (dir : V3) : V3 :=
  match CUBE_VERTICES.map (fun p => r.frame.act p) with
  | [] => r.frame.position
  | p :: ps =>
    ps.foldl (fun acc next =>
      if F.total_gt (acc.dot dir) (next.dot dir) then acc else next) p

/-- `Rigid::minkowski_support` (src/collision.rs). -/
def Rigid.minkowski_support (r other : Rigid) (direction : V3) : V3 :=
  r.support direction - other.support (-direction)

/-- `same_direction` (src/collision.rs): `a.dot(b) > 0.0`. -/
def same_direction (a b : V3) : Bool := (a.dot b).gt_zero

/-- `Simplex` (src/collision.rs): simplices up to dimension 2; the
invariant the source documents is that earlier tuple elements were more
recently added. -/
inductive Simplex where
  | Point (a : V3)
  | Line (a b : V3)
  | Triangle (a b c : V3)
  deriving DecidableEq, Repr

/-- The most recently added vertex of a simplex: its first tuple element,
per the documented ordering invariant. -/
def Simplex.newest : Simplex → V3
  | .Point a => a
  | .Line a _ => a
  | .Triangle a _ _ => a

/-- `Simplex::line` (src/collision.rs). -/
def Simplex.line (a b : V3) : Simplex × V3 :=
  let ab := b - a
  let ao := -a
  if same_direction ab ao then
    (Simplex.Line a b, (ab.cross ao).cross ab)
  else
    (Simplex.Point a, ao)

/-- `Simplex::triangle` (src/collision.rs). -/
def Simplex.triangle (a b c : V3) : Simplex × V3 :=
  let ab := b - a
  let ac := c - a
  let ao := -a
  let abc := ab.cross ac
  if same_direction (abc.cross ac) ao then
    if same_direction ac ao then
      (Simplex.Line a c, (ac.cross ao).cross ac)
    else
      Simplex.line a b
  else if same_direction (ab.cross abc) ao then
    Simplex.line a b
  else if same_direction abc ao then
    (Simplex.Triangle a b c, abc)
  else
    (Simplex.Triangle a c b, -abc)

/-- `Simplex::tetrahedron` (src/collision.rs): `Sum.inl` is the `Ok`
(enclosing tetrahedron) case, `Sum.inr` the `Err` (smaller simplex plus
next direction) case. -/
def Simplex.tetrahedron (a b c d : V3) :
    (V3 × V3 × V3 × V3) ⊕ (Simplex × V3) :=
  let ab := b - a
  let ac := c - a
  let ad := d - a
  let ao := -a
  let abc := ab.cross ac
  let acd := ac.cross ad
  let adb := ad.cross ab
  if same_direction abc ao then
    .inr (Simplex.triangle a b c)
  else if same_direction acd ao then
    .inr (Simplex.triangle a c d)
  else if same_direction adb ao then
    .inr (Simplex.triangle a d b)
  else
    .inl (a, b, c, d)

/-- `Simplex::enclose` (src/collision.rs). -/
def Simplex.enclose (s : Simplex) (v : V3) : (V3 × V3 × V3 × V3) ⊕ (Simplex × V3) :=
  match s with
  | .Point a => .inr (Simplex.line v a)
  | .Line a b => .inr (Simplex.triangle v a b)
  | .Triangle a b c => Simplex.tetrahedron v a b c

/-- The `loop` of `Rigid::gjk` (src/collision.rs), with explicit fuel:
`some` is a return of the source loop, `none` means the fuel elapsed
before the loop returned. -/
def gjk_loop (r other : Rigid) : Nat → Simplex → V3 → Option Bool
  | 0, _, _ => none
  | fuel + 1, simplex, direction =>
    let support := r.minkowski_support other direction
    if !same_direction direction support then
      some false
    else
      match simplex.enclose support with
      | .inl _ => some true
      | .inr (next_simplex, next_direction) =>
        gjk_loop r other fuel next_simplex next_direction

/-- `Rigid::gjk` (src/collision.rs): initial direction opposite the
Minkowski support along `unit_x`, initial simplex that support point. -/
def Rigid.gjk (r other : Rigid) (fuel : Nat) : Option Bool :=
  let direction := -(r.minkowski_support other unit_x)
  gjk_loop r other fuel (Simplex.Point (-direction)) direction

/-- A unit-cube rigid body with identity orientation centered at the
given point. -/
def cube (center : V3) : Rigid :=
  ⟨⟨center, ⟨F.ofInt 1, V3.ofInt 0 0 0⟩⟩⟩

end FP

@[simp]
theorem V3.add_def (a b : V3) : a + b = ⟨a.x + b.x, a.y + b.y, a.z + b.z⟩ := rfl

@[simp]
theorem V3.sub_def (a b : V3) : a - b = ⟨a.x - b.x, a.y - b.y, a.z - b.z⟩ := rfl

@[simp]
theorem V3.neg_def (a : V3) : -a = ⟨-a.x, -a.y, -a.z⟩ := rfl

@[simp]
theorem V3.smul_def (s : ℚ) (a : V3) : s • a = ⟨s * a.x, s * a.y, s * a.z⟩ := rfl

@[simp]
theorem V3.div_def (a : V3) (s : ℚ) : a / s = ⟨a.x / s, a.y / s, a.z / s⟩ := rfl

@[simp]
theorem Quat.qadd_def (a b : Quat) : a + b = ⟨a.s + b.s, a.v + b.v⟩ := rfl

@[simp]
theorem Quat.qsmul_def (s : ℚ) (a : Quat) : s • a = ⟨s * a.s, s • a.v⟩ := rfl

theorem Quat.mul_def (a b : Quat) :
    a * b =
      ⟨a.s * b.s - a.v.x * b.v.x - a.v.y * b.v.y - a.v.z * b.v.z,
       ⟨a.s * b.v.x + a.v.x * b.s + a.v.y * b.v.z - a.v.z * b.v.y,
        a.s * b.v.y + a.v.y * b.s + a.v.z * b.v.x - a.v.x * b.v.z,
        a.s * b.v.z + a.v.z * b.s + a.v.x * b.v.y - a.v.y * b.v.x⟩⟩ := rfl

theorem V3.one_smul (a : V3) : (1 : ℚ) • a = a := by
  ext <;> simp

theorem Quat.qsmul_mul (s : ℚ) (p q : Quat) : (s • p) * q = s • (p * q) := by
  ext <;> simp [Quat.mul_def] <;> ring

/-- Claim C5: for every `Rigid` and every `dt`, `integrate dt` performs, in
order: (a) `velocity += dt * (external_force + orientation * internal_force)
/ mass`; (b) `angular_velocity += dt * (external_torque + orientation *
internal_torque)` divided component-wise by the rotational inertia; (c)
`past_frame` becomes the pre-step frame; (d) `frame` becomes
`Frame::integrate` of the pre-step frame with `dt` and the updated
velocities.  The definition of `Rigid.integrate` takes only the body and
`dt`, so it reads no constraint state. -/
theorem integrate_spec (R : RealFns) (r : Rigid) (dt : ℚ) :
    r.integrate R dt =
      { r with
        velocity :=
          r.velocity +
            (dt • (r.external_force + r.frame.quaternion.rotate r.internal_force)) / r.mass
        angular_velocity :=
          r.angular_velocity +
            dt • ((r.external_torque + r.frame.quaternion.rotate r.internal_torque).div_element_wise
              r.rotational_inertia)
        past_frame := some r.frame
        frame :=
          r.frame.integrate R dt
            (r.velocity +
              (dt • (r.external_force + r.frame.quaternion.rotate r.internal_force)) / r.mass)
            (r.angular_velocity +
              dt • ((r.external_torque +
                r.frame.quaternion.rotate r.internal_torque).div_element_wise
                  r.rotational_inertia)) } := rfl

/-- Claim C3: for every `Rigid`, `apply_impulse impulse point` adds
`impulse / mass` to `frame.position`, and updates the orientation by
forming the torque lever `point - position` (the already-updated position)
divided component-wise by the rotational inertia and crossed with the
impulse, half-applying it as a quaternion derivative (`0.5` times the pure
quaternion of the lever times the orientation, added to the orientation),
then renormalizing the orientation. -/
theorem apply_impulse_spec (R : RealFns) (r : Rigid) (impulse point : V3) :
    r.apply_impulse R impulse point =
      { r with
        frame :=
          { position := r.frame.position + impulse / r.mass
            quaternion :=
              Quat.normalize R
                (r.frame.quaternion +
                  ((1 : ℚ) / 2) •
                    ((⟨0,
                        ((point - (r.frame.position + impulse / r.mass)).div_element_wise
                          r.rotational_inertia).cross impulse⟩ : Quat) *
                      r.frame.quaternion)) } } := by
  simp only [Rigid.apply_impulse, Quat.qsmul_mul]

/-- Claim C9: for every `Rigid` whose `past_frame` is `none`, `delta`
returns exactly the zero vector for every world point. -/
theorem delta_cold_start (r : Rigid) (global : V3) (h : r.past_frame = none) :
    r.delta global = V3.zero := by
  simp [Rigid.delta, h]

/-- Witness for `delta_cold_start` at a concrete body (a freshly
constructed one, whose past frame is absent) and a concrete point. -/
theorem delta_cold_start_witness :
    (Rigid.new 1).past_frame = none ∧ (Rigid.new 1).delta ⟨1, 2, 3⟩ = V3.zero :=
  ⟨rfl, delta_cold_start (Rigid.new 1) ⟨1, 2, 3⟩ rfl⟩

/-- Claim C8, counterexample: the construction entry point `Rigid::new`
does not reject a non-positive mass — at mass `-1` it yields an ordinary
body (with the negative mass and a negative default inertia) instead of a
`ConfigurationError`; no validation or error path exists in the source. -/
theorem new_nonpositive_mass_yields_body :
    (Rigid.new (-1)).mass = -1 ∧
    (Rigid.new (-1)).rotational_inertia = ⟨-(1 / 6 : ℚ), -(1 / 6), -(1 / 6)⟩ ∧
    (Rigid.new (-1)).past_frame = none := by
  refine ⟨rfl, ?_, rfl⟩
  simp only [Rigid.new, V3.smul_def, V3.mk.injEq]
  norm_num

/-- Claim C8, amended: `Rigid::new` performs no validation of the mass;
for every mass (positive or not) it yields a body with default unit-cube
inertia `mass/12 * (2, 2, 2) = (mass/6, mass/6, mass/6)`, zero forces,
torques and velocities, the default frame, no past frame and no color. -/
theorem new_unvalidated_spec (mass : ℚ) :
    Rigid.new mass =
      { mass := mass
        rotational_inertia := ⟨mass / 6, mass / 6, mass / 6⟩
        external_force := V3.zero
        internal_force := V3.zero
        external_torque := V3.zero
        internal_torque := V3.zero
        velocity := V3.zero
        angular_velocity := V3.zero
        frame := Frame.default
        past_frame := none
        color := none } := by
  simp only [Rigid.new, Rigid.mk.injEq, V3.smul_def, V3.mk.injEq]
  norm_num
  ring

/-- Claim C1: at a degenerate constraint whose two contact points
coincide, `Constraint::act` does not skip the impulse — the source
normalizes the zero-length difference unconditionally and calls
`Rigid::apply_impulse`, so the owning body is not left unchanged (here its
orientation is renormalized; in IEEE f64 arithmetic the normalize of the
zero vector is NaN, which contaminates position and orientation).  The
`sqrt` model agrees with the real square root at the two values reached
(`0` and `4`). -/
theorem act_degenerate_mutates :
    Constraint.act
      (Constraint.mk { Rigid.new 1 with frame := ⟨V3.zero, ⟨2, V3.zero⟩⟩ }
        (⟨0, 0, 0⟩, ⟨0, 0, 0⟩) 0)
      ⟨fun x => if x = 4 then 2 else 0, fun _ => 0, fun _ => 0⟩ 1 ≠
      { Rigid.new 1 with frame := ⟨V3.zero, ⟨2, V3.zero⟩⟩ } := by
  intro h
  have hs := congrArg (fun r => r.frame.quaternion.s) h
  simp only [Constraint.act, Constraint.direction, Constraint.difference, V3.normalize,
    V3.magnitude, V3.dot, V3.cross, V3.div_element_wise, Rigid.apply_impulse, Quat.normalize,
    Quat.dot, Quat.mul_def, V3.smul_def, V3.sub_def, V3.add_def, V3.div_def, Quat.qadd_def,
    Quat.qsmul_def, V3.zero] at hs
  norm_num at hs

/-- Claim C6: for two unit-cube bodies with identity orientation, the GJK
overlap test returns `false` at centers `(0,0,0)` and `(2,0,0)`, and
`true` at centers `(0,0,0)` and `(0.5,0,0)` (the loop terminating within
the given fuel). -/
theorem gjk_scenarios :
    FP.Rigid.gjk (FP.cube (FP.V3.ofInt 0 0 0)) (FP.cube (FP.V3.ofInt 2 0 0)) 10 = some false ∧
    FP.Rigid.gjk (FP.cube (FP.V3.ofInt 0 0 0)) (FP.cube (FP.V3.halves 1 0 0)) 10 = some true :=
  ⟨by decide, by decide⟩

/-- Claim C10: the GJK test's boundary policy is exclusive — a support
point whose dot product with the search direction is exactly zero fails
`same_direction` (which tests a strict `> 0.0`), so two unit cubes with
identity orientation exactly touching at centers `(0,0,0)` and `(1,0,0)`
are reported as not overlapping. -/
theorem gjk_boundary_exclusive :
    (∀ a b : FP.V3, (a.dot b).num = 0 → FP.same_direction a b = false) ∧
    FP.Rigid.gjk (FP.cube (FP.V3.ofInt 0 0 0)) (FP.cube (FP.V3.ofInt 1 0 0)) 10 =
      some false := by
  constructor
  · intro a b h
    simp [FP.same_direction, FP.F.gt_zero, h]
  · decide

/-- Witness for `gjk_boundary_exclusive`: its zero-dot hypothesis holds at
the concrete orthogonal pair `unit_x`, `(0,1,0)`. -/
theorem gjk_boundary_exclusive_witness :
    (FP.unit_x.dot (FP.V3.ofInt 0 1 0)).num = 0 ∧
    FP.same_direction FP.unit_x (FP.V3.ofInt 0 1 0) = false ∧
    FP.Rigid.gjk (FP.cube (FP.V3.ofInt 0 0 0)) (FP.cube (FP.V3.ofInt 1 0 0)) 10 =
      some false :=
  ⟨by decide, gjk_boundary_exclusive.1 FP.unit_x (FP.V3.ofInt 0 1 0) (by decide),
    gjk_boundary_exclusive.2⟩

theorem fp_line_newest (a b : FP.V3) : ((FP.Simplex.line a b).1).newest = a := by
  simp only [FP.Simplex.line]
  split <;> rfl

theorem fp_triangle_newest (a b c : FP.V3) : ((FP.Simplex.triangle a b c).1).newest = a := by
  simp only [FP.Simplex.triangle]
  split
  · split
    · rfl
    · exact fp_line_newest a b
  · split
    · exact fp_line_newest a b
    · split
      · rfl
      · rfl

/-- Claim C7: every simplex produced by `Simplex::enclose` (through its
helper constructors `line`, `triangle` and `tetrahedron`) keeps the newly
added support point as the first element of the variant's tuple — and in
the enclosing-tetrahedron case the new point is likewise the first tuple
element.  This holds for every input simplex, in particular for those
already satisfying the ordering invariant. -/
theorem enclose_newest_first (s : FP.Simplex) (v : FP.V3) :
    match s.enclose v with
    | Sum.inl t => t.1 = v
    | Sum.inr p => (p.1).newest = v := by
  cases s with
  | Point a => exact fp_line_newest v a
  | Line a b => exact fp_triangle_newest v a b
  | Triangle a b c =>
    show match FP.Simplex.tetrahedron v a b c with
      | Sum.inl t => t.1 = v
      | Sum.inr p => (p.1).newest = v
    simp only [FP.Simplex.tetrahedron]
    split
    · next t heq =>
      repeat' split at heq
      all_goals first
      | (injection heq with h
         subst h
         rfl)
      | simp at heq
    · next p heq =>
      repeat' split at heq
      all_goals first
      | (injection heq with h
         subst h
         first
         | exact fp_triangle_newest v a b
         | exact fp_triangle_newest v b c
         | exact fp_triangle_newest v c a)
      | simp at heq

theorem inv_mass_lever_pos (m ix iy iz a b c : ℚ) (hm : 0 < m) (hx : 0 < ix)
    (hy : 0 < iy) (hz : 0 < iz) :
    0 < (m⁻¹ + (a / ix * a + b / iy * b + c / iz * c))⁻¹ := by
  have h1 : 0 < m⁻¹ := inv_pos.mpr hm
  have h2 : 0 ≤ a / ix * a := by
    rw [div_mul_eq_mul_div]
    exact div_nonneg (mul_self_nonneg a) hx.le
  have h3 : 0 ≤ b / iy * b := by
    rw [div_mul_eq_mul_div]
    exact div_nonneg (mul_self_nonneg b) hy.le
  have h4 : 0 ≤ c / iz * c := by
    rw [div_mul_eq_mul_div]
    exact div_nonneg (mul_self_nonneg c) hz.le
  exact inv_pos.mpr (by linarith)

/-- Claim C4: for every constraint over a body with positive mass and
positive rotational-inertia components and a nonzero contact difference,
`resistance` equals the reciprocal of `1/mass + (L ⊘ inertia) · L`, where
`L` is the angular lever `conj(orientation) * ((contacts.0 - position) ×
direction)`, and this value is strictly positive. -/
theorem resistance_spec (R : RealFns) (c : Constraint)
    (hm : 0 < c.rigid.mass) (hx : 0 < c.rigid.rotational_inertia.x)
    (hy : 0 < c.rigid.rotational_inertia.y) (hz : 0 < c.rigid.rotational_inertia.z)
    (_hd : c.difference ≠ V3.zero) :
    c.resistance R =
      (c.rigid.mass⁻¹ +
        ((c.rigid.frame.quaternion.conjugate.rotate
              ((c.contacts.1 - c.rigid.frame.position).cross (c.direction R))).div_element_wise
            c.rigid.rotational_inertia).dot
          (c.rigid.frame.quaternion.conjugate.rotate
            ((c.contacts.1 - c.rigid.frame.position).cross (c.direction R))))⁻¹ ∧
    0 < c.resistance R := by
  constructor
  · rfl
  · exact inv_mass_lever_pos c.rigid.mass c.rigid.rotational_inertia.x
      c.rigid.rotational_inertia.y c.rigid.rotational_inertia.z
      (c.rigid.frame.quaternion.conjugate.rotate
        ((c.contacts.1 - c.rigid.frame.position).cross (c.direction R))).x
      (c.rigid.frame.quaternion.conjugate.rotate
        ((c.contacts.1 - c.rigid.frame.position).cross (c.direction R))).y
      (c.rigid.frame.quaternion.conjugate.rotate
        ((c.contacts.1 - c.rigid.frame.position).cross (c.direction R))).z
      hm hx hy hz

/-- Witness for `resistance_spec` at a concrete constraint: a fresh unit
body with contact points `(0,0,0)` and `(1,0,0)`, under an arbitrary
square-root model. -/
theorem resistance_spec_witness :
    0 < (Rigid.new 1).mass ∧
    0 < (Rigid.new 1).rotational_inertia.x ∧
    0 < (Rigid.new 1).rotational_inertia.y ∧
    0 < (Rigid.new 1).rotational_inertia.z ∧
    (Constraint.mk (Rigid.new 1) (⟨0, 0, 0⟩, ⟨1, 0, 0⟩) 0).difference ≠ V3.zero ∧
    0 < (Constraint.mk (Rigid.new 1) (⟨0, 0, 0⟩, ⟨1, 0, 0⟩) 0).resistance
        ⟨fun _ => 0, fun _ => 0, fun _ => 0⟩ := by
  have hm : 0 < (Rigid.new 1).mass := by norm_num [Rigid.new]
  have hx : 0 < (Rigid.new 1).rotational_inertia.x := by
    norm_num [Rigid.new, V3.smul_def]
  have hy : 0 < (Rigid.new 1).rotational_inertia.y := by
    norm_num [Rigid.new, V3.smul_def]
  have hz : 0 < (Rigid.new 1).rotational_inertia.z := by
    norm_num [Rigid.new, V3.smul_def]
  have hd : (Constraint.mk (Rigid.new 1) (⟨0, 0, 0⟩, ⟨1, 0, 0⟩) 0).difference ≠ V3.zero := by
    simp only [Constraint.difference, V3.sub_def, V3.zero, ne_eq, V3.mk.injEq]
    norm_num
  exact ⟨hm, hx, hy, hz, hd,
    (resistance_spec ⟨fun _ => 0, fun _ => 0, fun _ => 0⟩
      (Constraint.mk (Rigid.new 1) (⟨0, 0, 0⟩, ⟨1, 0, 0⟩) 0) hm hx hy hz hd).2⟩

theorem foldl_skip_push {α β : Type} (p : α → Prop) [DecidablePred p] (g : α → β)
    (step : List β → α → List β)
    (hstep : ∀ acc v, step acc v = if p v then acc ++ [g v] else acc) :
    ∀ (l : List α) (acc : List β),
      l.foldl step acc = acc ++ (l.filter fun v => decide (p v)).map g := by
  intro l
  induction l with
  | nil => intro acc; simp
  | cons v t ih =>
    intro acc
    rw [List.foldl_cons, hstep, List.filter_cons]
    by_cases h : p v
    · rw [if_pos h, ih]
      simp [h, List.append_assoc]
    · rw [if_neg h, ih]
      simp [h]

/-- Claim C2: for every body, `ground` emits exactly one constraint per
cube corner whose world position under the current frame has `z < 0` and
none for corners with `z ≥ 0`; each emitted constraint pairs the corner's
world position with its vertical projection `(x, y, 0)` onto the ground
plane minus the tangential part of `delta(position)` (the delta minus its
projection onto the correction vector), and carries rest distance `0`. -/
theorem ground_characterization (r : Rigid) :
    ground r =
      (CUBE_VERTICES.filter fun vertex => decide ((r.frame.act vertex).z < 0)).map
        (fun vertex =>
          { rigid := r
            contacts :=
              (r.frame.act vertex,
                (⟨(r.frame.act vertex).x, (r.frame.act vertex).y, 0⟩ : V3) -
                  (r.delta (r.frame.act vertex) -
                    (r.delta (r.frame.act vertex)).project_on
                      ((⟨(r.frame.act vertex).x, (r.frame.act vertex).y, 0⟩ : V3) -
                        r.frame.act vertex)))
            distance := 0 }) := by
  have key :=
    foldl_skip_push (fun vertex => (r.frame.act vertex).z < 0)
      (fun vertex =>
        ({ rigid := r
           contacts :=
             (r.frame.act vertex,
               (⟨(r.frame.act vertex).x, (r.frame.act vertex).y, 0⟩ : V3) -
                 (r.delta (r.frame.act vertex) -
                   (r.delta (r.frame.act vertex)).project_on
                     ((⟨(r.frame.act vertex).x, (r.frame.act vertex).y, 0⟩ : V3) -
                       r.frame.act vertex)))
           distance := 0 } : Constraint))
      (fun (constraints : List Constraint) (vertex : V3) =>
        let position := r.frame.act vertex
        if 0 ≤ position.z then constraints
        else
          let target_position : V3 := ⟨position.x, position.y, 0⟩
          let correction := target_position - position
          let delta_position := r.delta position
          let delta_tangential_position :=
            delta_position - delta_position.project_on correction
          constraints ++
            [{ rigid := r
               contacts := (position, target_position - (1 : ℚ) • delta_tangential_position)
               distance := 0 }])
      (by
        intro acc v
        dsimp only
        by_cases h : 0 ≤ (r.frame.act v).z
        · rw [if_pos h, if_neg (not_lt.mpr h)]
        · rw [if_neg h, if_pos (lt_of_not_ge h)]
          simp [V3.one_smul])
      CUBE_VERTICES []
  exact key.trans (List.nil_append _)
